import Mathlib

/-!
# InfraZero dashboard core — shallow embedding

This file embeds the client-side orchestration core of the InfraZero
dashboard (`src/dashboard/app/page.tsx`) in Lean 4 and settles the frozen
claims about it.

Modelling conventions:
* JS numbers carrying latencies are modelled as `ℚ`; `Math.round` is
  `jsRound` (round half up, `⌊x + 1/2⌋`), `Number.MAX_SAFE_INTEGER` is the
  literal `9007199254740991`.
* JS truthiness defaulting `x || d` on an optional number is `jsOr`
  (`null`/`undefined` and `0` are falsy); on strings it is `jsOrStr`
  (the empty string is falsy).
* React state cells and refs become fields of explicit state records
  (`DashState`, `GenState`); an `async` handler becomes a function from the
  pre-state and the outcome of its awaited remote call to the post-state.
  `handleKill` is split at its `await` suspension point so that the state
  while the remote call is outstanding is observable.
* Wall-clock times (`Date.now()`) are `ℕ` milliseconds passed in as
  arguments; the random ids/timestamps of log entries are irrelevant to
  every claim, so a log entry is modelled by its message string.
* The refresh scheduler (`loadRegions` guards + `loadingLockRef` +
  `lastRefreshTimeRef`) additionally gets a small event-trace semantics
  (`SchedState`/`SchedEvent`) in which invocations and completions of the
  remote list call are separate events, so that the number of outstanding
  list-regions calls at each point of an execution is observable.
-/

/-- `Number.MAX_SAFE_INTEGER`, used by `pipelineSummary` as the fallback in
the fastest-region comparison. -/
def MAX_SAFE_INTEGER : ℚ := 9007199254740991

/-- JS `x || d` for an optional number `x`: `null`/`undefined` and `0` are
falsy and yield the default `d`. -/
def jsOr (x : Option ℚ) (d : ℚ) : ℚ :=
  match x with
  | none => d
  | some v => if v = 0 then d else v

/-- JS `a || b` for strings: the empty string is falsy. -/
def jsOrStr (a b : String) : String :=
  if a = "" then b else a

/-- JS `Math.round`: round half toward positive infinity. -/
def jsRound (x : ℚ) : ℤ := ⌊x + 1/2⌋

/-- JS `String.prototype.trim`: strip leading and trailing whitespace. -/
def jsTrim (s : String) : String :=
  ⟨((s.data.dropWhile Char.isWhitespace).reverse.dropWhile Char.isWhitespace).reverse⟩

/-- `type Region` of `page.tsx`. `latency_ms` is an optional number,
`ip` an optional string, `disabled` an optional boolean (absent ≡ false). -/
structure Region where
  id : String
  slug : String
  display_name : String
  ip : Option String := none
  status : String
  latency_ms : Option ℚ := none
  disabled : Bool := false
deriving DecidableEq, Repr

/-- `isKillDisabled` of `page.tsx`: a region's kill control is disabled when
its status is `down` or `killed`, or it is flagged disabled. -/
def isKillDisabled (region : Region) : Bool :=
  region.status == "down" || region.status == "killed" || region.disabled

/-- `type RegionResult` of `page.tsx`: one per-region entry of a
multi-region generation response. -/
structure RegionResult where
  region_id : String
  region_slug : String
  region_name : String
  latency_ms : Option ℚ := none
  image_url : Option String := none
  engine : Option String := none
  effect : Option String := none
  error : Option String := none
deriving DecidableEq, Repr

/-- `type LastResult` of `page.tsx`: the top-level generation result. -/
structure LastResult where
  prompt : Option String := none
  image_url : Option String := none
  region_id : Option String := none
  region_slug : Option String := none
  region_name : Option String := none
  latency_ms : Option ℚ := none
  effect : Option String := none
  error : Option String := none
  results : Option (List RegionResult) := none
deriving DecidableEq, Repr

/-- The body of `appendLog` (`page.tsx` lines 101–111): the state update
`prev ↦ [newEntry, ...prev.slice(0, 50)]`, with an entry modelled by its
message. -/
def appendLog (message : String) (logs : List String) : List String :=
  message :: logs.take 50

/-- The reconciliation pass inside `loadRegions` (`page.tsx` lines 134–149):
for each fetched region, if the previous roster holds a region with the same
id whose status is `killed` or `down`, the fetched entry is kept but its
status is forced to `killed` and its latency to `null`; otherwise the
fetched entry is used verbatim. -/
def reconcileRegions (currentRegions fetched : List Region) : List Region :=
  fetched.map (fun newRegion =>
    match currentRegions.find? (fun r => r.id == newRegion.id) with
    | some currentRegion =>
      if currentRegion.status == "killed" || currentRegion.status == "down" then
        { newRegion with status := "killed", latency_ms := none }
      else
        newRegion
    | none => newRegion)

/-- The dashboard session state touched by `loadRegions` and `handleKill`:
React state cells and refs of `Home` in `page.tsx`. -/
structure DashState where
  regions : List Region
  deploymentId : Option String := none
  lastError : Option String := none
  logs : List String := []
  lastRefreshTime : ℕ := 0
  loadingLock : Bool := false
  isLoadingRegions : Bool := false
  killingRegion : Option String := none
deriving DecidableEq, Repr

/-- Outcome of the awaited `fetchRegions()` call: `ok` is a resolved JSON
payload (`regionsField = none` models a payload whose `regions` field is not
an array), `err` a thrown transport error with its message. -/
inductive FetchOutcome where
  | ok (deploymentId : Option String) (regionsField : Option (List Region))
  | err (msg : String)
deriving DecidableEq, Repr

/-- `loadRegions` (`page.tsx` lines 113–166) as a function of the pre-state,
the `force` flag, the wall-clock time `now` at entry, and the outcome of the
awaited fetch.  Mirrors the source: the in-flight guard is
`if (loadingLockRef.current && !force) return`, the cooldown guard is
`if (!force && now - last < 2000) return`; on success the roster is
reconciled (or emptied when `regions` is not an array), `lastRefreshTime`
is set to `now` and the error slot cleared; on a thrown fetch the error slot
is set and one log entry appended; the `finally` clause releases the lock. -/
def loadRegions (s : DashState) (force : Bool) (now : ℕ)
    (outcome : FetchOutcome) : DashState :=
  if s.loadingLock && !force then s
  else if !force && decide (now - s.lastRefreshTime < 2000) then s
  else
    let s1 : DashState := { s with loadingLock := true, isLoadingRegions := true }
    match outcome with
    | .ok dep regionsField =>
      let s2 : DashState :=
        match dep with
        | some d => if d == "" then s1 else { s1 with deploymentId := some d }
        | none => s1
      let s3 : DashState :=
        match regionsField with
        | some rs => { s2 with regions := reconcileRegions s2.regions rs }
        | none => { s2 with regions := [] }
      { s3 with lastRefreshTime := now, lastError := none,
                isLoadingRegions := false, loadingLock := false }
    | .err msg =>
      { s1 with lastError := some "Failed to load regions",
                logs := appendLog ("Failed to load regions: " ++ msg) s1.logs,
                isLoadingRegions := false, loadingLock := false }

/-- Outcome of the awaited `killRegion` call: resolved, or thrown with a
message. -/
inductive KillOutcome where
  | ok
  | thrown (msg : String)
deriving DecidableEq, Repr

/-- The guard of `handleKill` (`page.tsx` line 281):
`if (isKillDisabled(region) || killingRegion) return`. -/
def killGuard (s : DashState) (region : Region) : Bool :=
  isKillDisabled region || s.killingRegion.isSome

/-- The state of `handleKill` (`page.tsx` lines 283–288) at its `await`
suspension point, guard already passed: `killingRegion` is set, the
"Killing region" log entry appended, the error slot cleared — and the
remote `killRegion` call has been issued but not resolved.  Note the roster
is untouched here: the local `killed` transition only happens after the
remote call resolves. -/
def handleKillSuspended (s : DashState) (region : Region) : DashState :=
  { s with killingRegion := some region.id,
           logs := appendLog ("Killing region: " ++ region.display_name) s.logs,
           lastError := none }

/-- Resumption of `handleKill` (`page.tsx` lines 288–313) after the remote
call resolves: on success the matching roster entry is set to `killed` with
latency cleared and a success entry logged; on a thrown call the error slot
is set and the failure logged, with the roster untouched; the `finally`
clause clears `killingRegion`.  (The delayed forced refresh scheduled by
`setTimeout` on success is a separate later `loadRegions` invocation, not
part of this function.) -/
def handleKillResume (s : DashState) (region : Region)
    (outcome : KillOutcome) : DashState :=
  match outcome with
  | .ok =>
    { s with
      regions := s.regions.map (fun r =>
        if r.id == region.id then { r with status := "killed", latency_ms := none }
        else r),
      logs := appendLog ("Region killed: " ++ region.display_name) s.logs,
      killingRegion := none }
  | .thrown msg =>
    { s with lastError := some "Failed to kill region",
             logs := appendLog ("Kill failed: " ++ msg) s.logs,
             killingRegion := none }

/-- `handleKill` end to end: guard, then suspension, then resumption with
the given remote outcome. -/
def handleKill (s : DashState) (region : Region) (outcome : KillOutcome) :
    DashState :=
  if killGuard s region then s
  else handleKillResume (handleKillSuspended s region) region outcome

/-- `pipelineSummary` return record (`page.tsx` lines 238–244). -/
structure PipelineSummary where
  count : ℕ
  fastestName : String
  fastestLatency : ℤ
  averageLatency : ℤ
  parallelTime : ℤ
deriving DecidableEq, Repr

/-- The fastest-region selection loop of `pipelineSummary` (`page.tsx`
lines 221–233): starting from `valid[0]`, replace the candidate whenever
`(r.latency_ms || MAX_SAFE_INTEGER) < (fastest.latency_ms || MAX_SAFE_INTEGER)`. -/
def fastestFold (init : RegionResult) (l : List RegionResult) : RegionResult :=
  l.foldl (fun fastest r =>
    if jsOr r.latency_ms MAX_SAFE_INTEGER < jsOr fastest.latency_ms MAX_SAFE_INTEGER
    then r else fastest) init

/-- The latency-sum loop of `pipelineSummary`: `sum += (r.latency_ms || 0)`. -/
def latencySum (l : List RegionResult) : ℚ :=
  l.foldl (fun acc r => acc + jsOr r.latency_ms 0) 0

/-- `pipelineSummary` (`page.tsx` lines 211–245) on the per-region result
list (the `useMemo` also returns `null` when `lastResult` itself is absent;
that outer check is the `results.length = 0` case here).  Entries whose
`latency_ms` is not a number are filtered out; `count`, the fastest entry,
the rounded average, and `Math.round(Math.min(...))` are computed as in the
source. -/
def pipelineSummary (results : List RegionResult) : Option PipelineSummary :=
  if results.length = 0 then none
  else
    match results.filter (fun r => r.latency_ms.isSome) with
    | [] => none
    | v0 :: vtail =>
      let valid := v0 :: vtail
      let count := valid.length
      let fastest := fastestFold v0 valid
      let sum := latencySum valid
      let averageLatency := sum / (count : ℚ)
      let parallelTime :=
        (vtail.map (fun r => jsOr r.latency_ms 0)).foldl min (jsOr v0.latency_ms 0)
      some { count := count,
             fastestName := jsOrStr fastest.region_name fastest.region_slug,
             fastestLatency := jsRound (jsOr fastest.latency_ms 0),
             averageLatency := jsRound averageLatency,
             parallelTime := jsRound parallelTime }

/-- The generation-side state touched by `handleGenerate`. -/
structure GenState where
  progressByRegion : List (String × ℚ) := []
  progressTimer : Option ℕ := none
  isGenerating : Bool := false
  lastResult : Option LastResult := none
  lastError : Option String := none
  logs : List String := []
deriving DecidableEq, Repr

/-- Outcome of the awaited `infer` call: a resolved payload (which may carry
a soft `error` field), or a thrown transport error. -/
inductive GenOutcome where
  | resolved (data : LastResult)
  | thrown (msg : String)
deriving DecidableEq, Repr

/-- The per-region line of the "Multi-region pipeline" log entry of
`handleGenerate` (`page.tsx` lines 366–374). -/
def pipelineLogPiece (r : RegionResult) : String :=
  r.region_slug ++ ":" ++ jsOrStr (r.effect.getD "") (jsOrStr (r.engine.getD "") "n/a")
    ++ "(" ++ (match r.latency_ms with
               | some v => toString (jsRound v) ++ "ms"
               | none => "fail") ++ ")"

/-- `handleGenerate` (`page.tsx` lines 318–402) as a function of the
pre-state, the prompt, the roster at call time, the random initial progress
seeds, the id of the freshly started tick timer, and the outcome of the
awaited `infer` call.  Mirrors the source: the guard
`if (!prompt.trim() || isGenerating) return`; the body clears any prior
timer, seeds the Progress Map over the healthy non-disabled regions, starts
a tick timer when that set is non-empty, logs the request, then branches on
the outcome (resolved payload — with its soft-error and multi-region log
entries — or thrown call), and the `finally` clause cancels the timer,
empties the Progress Map and releases the generating flag. -/
def handleGenerate (s : GenState) (prompt : String) (regions : List Region)
    (seed : String → ℚ) (timerId : ℕ) (outcome : GenOutcome) : GenState :=
  if jsTrim prompt == "" || s.isGenerating then s
  else
    let trimmedPrompt := jsTrim prompt
    let s1 : GenState := { s with isGenerating := true, lastError := none,
                                  lastResult := none, progressTimer := none }
    let activeRegions := regions.filter (fun r => r.status == "healthy" && !r.disabled)
    let s2 : GenState :=
      { s1 with progressByRegion := activeRegions.map (fun r => (r.id, seed r.id)) }
    let s3 : GenState :=
      if activeRegions.length > 0 then { s2 with progressTimer := some timerId } else s2
    let s4 : GenState :=
      { s3 with logs := appendLog ("Generating: \x22" ++ trimmedPrompt ++ "\x22") s3.logs }
    let s5 : GenState :=
      match outcome with
      | .resolved data =>
        let s5a : GenState :=
          { s4 with lastResult := some { data with prompt := some trimmedPrompt } }
        let s5b : GenState :=
          if data.error.isNone then
            match data.results with
            | some rs =>
              if rs.length > 0 then
                { s5a with logs := appendLog ("Multi-region pipeline -> " ++
                    String.intercalate ", " (rs.map pipelineLogPiece)) s5a.logs }
              else s5a
            | none => s5a
          else s5a
        match data.error with
        | some e => { s5b with logs := appendLog ("Generation error: " ++ e) s5b.logs }
        | none =>
          let regionLabel :=
            jsOrStr (data.region_name.getD "") (jsOrStr (data.region_slug.getD "") "unknown")
          { s5b with logs := appendLog ("Generated from " ++ regionLabel ++ " (" ++
              toString (jsRound (jsOr data.latency_ms 0)) ++ "ms)") s5b.logs }
      | .thrown msg =>
        { s4 with
          lastResult := some { prompt := some trimmedPrompt,
                               error := some "Service unavailable" },
          lastError := some "Generation failed",
          logs := appendLog ("Generation failed: " ++ msg) s4.logs }
    { s5 with progressTimer := none, progressByRegion := [], isGenerating := false }

/-!
## Refresh-scheduler trace semantics

`loadRegions`'s guards, the `loadingLockRef` flag and the
`lastRefreshTimeRef` timestamp, with the issue and the resolution of the
remote list call as separate events, so that the number of outstanding
list-regions calls is observable at every point of an execution.
-/

/-- The scheduler-relevant state: the in-flight flag `loadingLockRef`, the
`lastRefreshTimeRef` timestamp, and the number of outstanding (issued, not
yet resolved) list-regions calls — the latter an observation of the
execution, not a program variable. -/
structure SchedState where
  loadingLock : Bool := false
  lastRefreshTime : ℕ := 0
  outstanding : ℕ := 0
deriving DecidableEq, Repr

/-- Whether a `loadRegions(force)` invocation at wall-clock `now` passes
both guards and issues a list call (`page.tsx` lines 115–122). -/
def refreshStarts (s : SchedState) (now : ℕ) (force : Bool) : Bool :=
  if s.loadingLock && !force then false
  else if !force && decide (now - s.lastRefreshTime < 2000) then false
  else true

/-- An event of a scheduler execution: a `loadRegions` invocation at time
`now` with its `force` flag, or the resolution of a previously issued list
call (carrying the `now` captured when that call was issued, and whether the
fetch succeeded). -/
inductive SchedEvent where
  | invoke (now : ℕ) (force : Bool)
  | complete (startNow : ℕ) (success : Bool)
deriving DecidableEq, Repr

/-- One scheduler step; the second component is `1` when the event issued a
remote list call.  An invocation that passes the guards sets the lock and
issues a call; a completion releases the lock (the source's `finally`),
records the captured start time on success (`lastRefreshTimeRef.current = now`)
and leaves it unchanged on failure. -/
def schedStep (s : SchedState) (e : SchedEvent) : SchedState × ℕ :=
  match e with
  | .invoke now force =>
    if refreshStarts s now force then
      ({ s with loadingLock := true, outstanding := s.outstanding + 1 }, 1)
    else (s, 0)
  | .complete startNow success =>
    ({ loadingLock := false,
       lastRefreshTime := if success then startNow else s.lastRefreshTime,
       outstanding := s.outstanding - 1 }, 0)

/-- Run a list of scheduler events, returning the final state and the total
number of remote list calls issued. -/
def schedRun (s : SchedState) : List SchedEvent → SchedState × ℕ
  | [] => (s, 0)
  | e :: es =>
    let (s', n) := schedStep s e
    let (s'', m) := schedRun s' es
    (s'', n + m)

/-- The states visited while running a list of scheduler events, the start
state included. -/
def schedTrace (s : SchedState) : List SchedEvent → List SchedState
  | [] => [s]
  | e :: es => s :: schedTrace (schedStep s e).1 es

/-!
## Helper lemmas
-/

theorem jsOr_some_zero (v : ℚ) : jsOr (some v) 0 = v := by
  unfold jsOr
  by_cases h : v = 0 <;> simp [h]

theorem jsOr_some_of_ne (v d : ℚ) (h : v ≠ 0) : jsOr (some v) d = v := by
  simp [jsOr, h]

theorem jsRound_intCast (n : ℤ) : jsRound ((n : ℚ)) = n := by
  unfold jsRound
  rw [add_comm, Int.floor_add_int]
  norm_num

/-- In a roster with pairwise-distinct ids, `find?` by a member's id returns
that member. -/
theorem find_id_nodup (l : List Region) (p : Region)
    (hnodup : (l.map Region.id).Nodup) (hp : p ∈ l) :
    l.find? (fun r => r.id == p.id) = some p := by
  induction l with
  | nil => cases hp
  | cons q t ih =>
    rw [List.map_cons, List.nodup_cons] at hnodup
    rcases List.mem_cons.mp hp with rfl | hp'
    · exact List.find?_cons_of_pos _ (by simp)
    · have hne : (q.id == p.id) = false := by
        rw [beq_eq_false_iff_ne]
        intro hqp
        exact hnodup.1 (hqp ▸ List.mem_map_of_mem Region.id hp')
      rw [List.find?_cons_of_neg _ (by simp [hne]), ih hnodup.2 hp']

/-!
## Concrete fixtures
-/

/-- A healthy region used as concrete input. -/
def regionAlpha : Region :=
  { id := "alpha", slug := "alpha", display_name := "Alpha",
    status := "healthy", latency_ms := some 12 }

/-- The same region id observed as `down` with a stale latency. -/
def regionAlphaDown : Region :=
  { id := "alpha", slug := "alpha", display_name := "Alpha",
    status := "down", latency_ms := some 5 }

/-- A normalized killed region: status `killed`, latency cleared. -/
def regionBetaKilled : Region :=
  { id := "beta", slug := "beta", display_name := "Beta",
    status := "killed", latency_ms := none }

/-- Per-region result A, 120 ms (spec aggregation example). -/
def resultA : RegionResult :=
  { region_id := "a", region_slug := "a", region_name := "A", latency_ms := some 120 }

/-- Per-region result B, 80 ms (spec aggregation example). -/
def resultB : RegionResult :=
  { region_id := "b", region_slug := "b", region_name := "B", latency_ms := some 80 }

/-- Per-region result C, failed — no latency (spec aggregation example). -/
def resultC : RegionResult :=
  { region_id := "c", region_slug := "c", region_name := "C", error := some "boom" }

/-- Per-region result Z with a latency of exactly 0 ms. -/
def resultZ : RegionResult :=
  { region_id := "z", region_slug := "z", region_name := "Z", latency_ms := some 0 }

/-!
## C7 — reconciliation idempotence
-/

/-- C7 counterexample: `reconcile(R, R) = R` fails on the code.  For the
one-region roster holding `alpha` with status `down` and latency 5, the
reconciliation pass rewrites the entry to status `killed` with latency
`null`, so `reconcile(R, R) ≠ R`. -/
theorem reconcile_not_idempotent_cex :
    reconcileRegions [regionAlphaDown] [regionAlphaDown] ≠ [regionAlphaDown] ∧
    reconcileRegions [regionAlphaDown] [regionAlphaDown] =
      [{ regionAlphaDown with status := "killed", latency_ms := none }] := by
  constructor
  · decide
  · decide

/-- C7 amended: reconciliation is idempotent on normalized rosters — rosters
with pairwise-distinct ids in which no entry has status `down` and every
`killed` entry has `latency_ms = null`.  For such `R`, `reconcile(R, R) = R`.
(The counterexample above forces exactly these side conditions: a `down`
entry is rewritten to `killed`, and a `killed` entry with a non-null latency
has it cleared.) -/
theorem reconcile_idempotent_normalized (R : List Region)
    (hnodup : (R.map Region.id).Nodup)
    (hnorm : ∀ r ∈ R, r.status ≠ "down" ∧ (r.status = "killed" → r.latency_ms = none)) :
    reconcileRegions R R = R := by
  have hmap : ∀ (f : Region → Region) (l : List Region),
      (∀ a ∈ l, f a = a) → l.map f = l := by
    intro f l hl
    induction l with
    | nil => rfl
    | cons a t ih =>
      rw [List.map_cons, hl a (List.mem_cons_self a t),
        ih (fun x hx => hl x (List.mem_cons_of_mem a hx))]
  unfold reconcileRegions
  apply hmap
  intro r hr
  simp only [find_id_nodup R r hnodup hr]
  rcases hnorm r hr with ⟨hdown, hkill⟩
  by_cases hk : r.status = "killed"
  · have hlat := hkill hk
    simp only [hk, beq_self_eq_true, Bool.true_or, if_true]
    cases r
    simp_all
  · have : (r.status == "killed" || r.status == "down") = false := by
      simp [hk, hdown]
    rw [this]
    simp

/-- C7 witness: the amended idempotence theorem at a concrete normalized
two-region roster (one healthy, one killed with latency cleared). -/
theorem reconcile_idempotent_normalized_witness :
    reconcileRegions [regionAlpha, regionBetaKilled] [regionAlpha, regionBetaKilled] =
      [regionAlpha, regionBetaKilled] :=
  reconcile_idempotent_normalized [regionAlpha, regionBetaKilled]
    (by decide) (by decide)

/-!
## C9 — event log bound
-/

/-- C9: the code violates the 50-entry bound its own comment states
("Keep only last 50 logs"): appending to a log already holding 50 entries
yields 51, because `appendLog` prepends the new entry to `prev.slice(0, 50)`
(51 entries total) instead of `prev.slice(0, 49)`.  The new entry is indeed
prepended (newest-first). -/
theorem appendLog_exceeds_bound :
    (appendLog "overflow" (List.replicate 50 "entry")).length = 51 ∧
    ¬ (appendLog "overflow" (List.replicate 50 "entry")).length ≤ 50 ∧
    (appendLog "overflow" (List.replicate 50 "entry")).head? = some "overflow" := by
  refine ⟨?_, ?_, ?_⟩ <;> decide

/-!
## C2 — kill handler
-/

/-- A session state holding the single healthy region `alpha`, no kill in
flight. -/
def killState0 : DashState := { regions := [regionAlpha] }

/-- C2 counterexample: the kill is not optimistic.  With the eligible healthy
region `alpha` and no kill in flight, (i) at the `await killRegion`
suspension point the roster is untouched — `alpha` is still `healthy`, not
`killed` — and (ii) when the remote call throws, the handler resolves with
`alpha` still `healthy`: the local `killed` state was never asserted, while
the claim requires it to be asserted before the remote call returns and
retained on failure. -/
theorem handleKill_not_optimistic_cex :
    killGuard killState0 regionAlpha = false ∧
    (handleKillSuspended killState0 regionAlpha).regions.map Region.status = ["healthy"] ∧
    ¬ (handleKillSuspended killState0 regionAlpha).regions.map Region.status = ["killed"] ∧
    (handleKill killState0 regionAlpha (KillOutcome.thrown "network down")).regions.map
        Region.status = ["healthy"] ∧
    ¬ (handleKill killState0 regionAlpha (KillOutcome.thrown "network down")).regions.map
        Region.status = ["killed"] := by
  refine ⟨?_, ?_, ?_, ?_, ?_⟩ <;> decide

/-- C2 amended: the kill transition is applied only after the remote call
resolves, and is pessimistic rather than optimistic.  For an eligible region
with no kill in flight: while the remote kill call is outstanding the roster
is unchanged; on remote success exactly the entries with the region's id
transition to `killed` with latency cleared (pointwise over the roster); on
remote failure the roster is unchanged — the region is not marked `killed` —
the failure is logged, the error slot set, and the kill lock released. -/
theorem handleKill_post_confirmation (s : DashState) (region : Region)
    (hguard : killGuard s region = false) :
    (handleKillSuspended s region).regions = s.regions ∧
    (∀ i : ℕ, (handleKill s region KillOutcome.ok).regions[i]? =
      (s.regions[i]?).map (fun r =>
        if r.id = region.id then { r with status := "killed", latency_ms := none }
        else r)) ∧
    (∀ msg : String,
      (handleKill s region (KillOutcome.thrown msg)).regions = s.regions ∧
      (handleKill s region (KillOutcome.thrown msg)).lastError = some "Failed to kill region" ∧
      (handleKill s region (KillOutcome.thrown msg)).logs.head? =
        some ("Kill failed: " ++ msg) ∧
      (handleKill s region (KillOutcome.thrown msg)).killingRegion = none) := by
  refine ⟨rfl, ?_, ?_⟩
  · intro i
    simp only [handleKill, hguard, Bool.false_eq_true, if_false, handleKillResume,
      handleKillSuspended, List.getElem?_map]
    cases s.regions[i]? with
    | none => rfl
    | some r =>
      by_cases h : r.id = region.id <;> simp [h]
  · intro msg
    simp [handleKill, hguard, handleKillResume, handleKillSuspended, appendLog]

/-- C2 witness: the amended kill theorem at the concrete one-region state. -/
theorem handleKill_post_confirmation_witness :
    killGuard killState0 regionAlpha = false ∧
    ((handleKillSuspended killState0 regionAlpha).regions = killState0.regions ∧
    (∀ i : ℕ, (handleKill killState0 regionAlpha KillOutcome.ok).regions[i]? =
      (killState0.regions[i]?).map (fun r =>
        if r.id = regionAlpha.id then { r with status := "killed", latency_ms := none }
        else r)) ∧
    (∀ msg : String,
      (handleKill killState0 regionAlpha (KillOutcome.thrown msg)).regions =
        killState0.regions ∧
      (handleKill killState0 regionAlpha (KillOutcome.thrown msg)).lastError =
        some "Failed to kill region" ∧
      (handleKill killState0 regionAlpha (KillOutcome.thrown msg)).logs.head? =
        some ("Kill failed: " ++ msg) ∧
      (handleKill killState0 regionAlpha (KillOutcome.thrown msg)).killingRegion = none)) :=
  ⟨by decide, handleKill_post_confirmation killState0 regionAlpha (by decide)⟩

/-!
## C5 — malformed list response
-/

/-- C5 counterexample: a refresh whose fetch succeeds with a malformed
payload (`regions` not an array) empties the roster but appends NO log
entry — not the exactly-one entry the claim states.  Concrete input: forced
refresh at t=5000 on the one-region state with an empty log; afterwards the
log is still empty. -/
theorem malformed_no_log_cex :
    (loadRegions killState0 true 5000 (FetchOutcome.ok none none)).regions = [] ∧
    (loadRegions killState0 true 5000 (FetchOutcome.ok none none)).logs.length = 0 ∧
    ¬ (loadRegions killState0 true 5000 (FetchOutcome.ok none none)).logs.length =
        killState0.logs.length + 1 := by
  refine ⟨?_, ?_, ?_⟩ <;> decide

/-- C5 amended: for every refresh that passes the guards and whose fetch
resolves with a payload whose `regions` field is not an array, the roster
becomes empty, NO log entry is appended (the log is unchanged), the error
slot is cleared, and the refresh resolves normally with the in-flight lock
released (no exception escapes — the handler is a total state update). -/
theorem loadRegions_malformed_amended (s : DashState) (force : Bool) (now : ℕ)
    (dep : Option String)
    (hlock : s.loadingLock = false ∨ force = true)
    (hcool : force = true ∨ 2000 ≤ now - s.lastRefreshTime) :
    (loadRegions s force now (FetchOutcome.ok dep none)).regions = [] ∧
    (loadRegions s force now (FetchOutcome.ok dep none)).logs = s.logs ∧
    (loadRegions s force now (FetchOutcome.ok dep none)).lastError = none ∧
    (loadRegions s force now (FetchOutcome.ok dep none)).loadingLock = false := by
  have hg1 : (s.loadingLock && !force) = false := by
    rcases hlock with h | h <;> simp [h]
  have hg2 : (!force && decide (now - s.lastRefreshTime < 2000)) = false := by
    rcases hcool with h | h
    · simp [h]
    · simp [Nat.not_lt.mpr h]
  simp only [loadRegions, hg1, Bool.false_eq_true, if_false, hg2]
  cases dep with
  | none => simp
  | some d => by_cases h : d = "" <;> simp [h]

/-- C5 witness: the amended malformed-response theorem at the concrete
one-region state, forced refresh at t=5000. -/
theorem loadRegions_malformed_amended_witness :
    (killState0.loadingLock = false ∨ (true : Bool) = true) ∧
    ((loadRegions killState0 true 5000 (FetchOutcome.ok none none)).regions = [] ∧
    (loadRegions killState0 true 5000 (FetchOutcome.ok none none)).logs = killState0.logs ∧
    (loadRegions killState0 true 5000 (FetchOutcome.ok none none)).lastError = none ∧
    (loadRegions killState0 true 5000 (FetchOutcome.ok none none)).loadingLock = false) :=
  ⟨Or.inl rfl,
    loadRegions_malformed_amended killState0 true 5000 none (Or.inr rfl) (Or.inl rfl)⟩

/-!
## C1 — override law of reconciliation
-/

/-- C1: override law.  For any previous roster (a roster: pairwise-distinct
ids) holding a member `p` whose status is `killed` or `down`, and any
fetched roster whose `i`-th entry carries `p`'s id, the `i`-th entry of the
reconciled roster is exactly the fetched entry with `status = killed` and
`latency_ms = null` — whatever status the fetched entry reported (no
hypothesis constrains it). -/
theorem reconcile_override_law (previous fetched : List Region) (p : Region) (i : ℕ)
    (hnodup : (previous.map Region.id).Nodup) (hp : p ∈ previous)
    (hstatus : p.status = "killed" ∨ p.status = "down")
    (hi : i < fetched.length) (hid : (fetched.get ⟨i, hi⟩).id = p.id) :
    (reconcileRegions previous fetched)[i]? =
      some { fetched.get ⟨i, hi⟩ with status := "killed", latency_ms := none } := by
  have hfind : previous.find? (fun r => r.id == (fetched.get ⟨i, hi⟩).id) = some p := by
    rw [hid]
    exact find_id_nodup previous p hnodup hp
  have hcond : (p.status == "killed" || p.status == "down") = true := by
    rcases hstatus with h | h <;> simp [h]
  unfold reconcileRegions
  rw [List.getElem?_map, List.getElem?_eq_getElem hi]
  simp only [List.get_eq_getElem] at hfind ⊢
  simp only [Option.map_some', hfind, hcond]
  simp

/-- C1 witness: the override law at a concrete input — previous roster
`[alpha(down), beta(killed)]`, fetched roster `[alpha(healthy, 12ms)]`,
index 0: the reconciled entry is fetched `alpha` forced to `killed` with
latency `null`. -/
theorem reconcile_override_law_witness :
    (([regionAlphaDown, regionBetaKilled].map Region.id).Nodup ∧
      regionAlphaDown ∈ [regionAlphaDown, regionBetaKilled] ∧
      (regionAlphaDown.status = "killed" ∨ regionAlphaDown.status = "down") ∧
      ([regionAlpha].get ⟨0, by decide⟩).id = regionAlphaDown.id) ∧
    (reconcileRegions [regionAlphaDown, regionBetaKilled] [regionAlpha])[0]? =
      some { [regionAlpha].get ⟨0, by decide⟩ with status := "killed", latency_ms := none } :=
  ⟨⟨by decide, by decide, by decide, by decide⟩,
    reconcile_override_law [regionAlphaDown, regionBetaKilled] [regionAlpha]
      regionAlphaDown 0 (by decide) (by decide) (by decide) (by decide) (by decide)⟩

/-- A scheduler state with one list call in flight. -/
def lockedSched : SchedState :=
  { loadingLock := true, lastRefreshTime := 0, outstanding := 1 }

/-!
## C3 — forced-refresh serialization
-/

/-- C3 counterexample: a forced refresh issued while another refresh is in
flight DOES start a second concurrent list-regions call, because the source
guard `if (loadingLockRef.current && !force) return` is bypassed by
`force`.  Concrete execution from the initial state: a non-forced refresh at
t=3000 starts a call (one outstanding); a forced refresh at t=3100, while
that call is still in flight, starts a second (two outstanding) — the
outstanding-call counts along the trace are [0, 1, 2], violating the
at-most-one bound. -/
theorem forced_refresh_overlap_cex :
    (schedTrace {} [SchedEvent.invoke 3000 false, SchedEvent.invoke 3100 true]).map
        SchedState.outstanding = [0, 1, 2] ∧
    ¬ ∀ st ∈ schedTrace {} [SchedEvent.invoke 3000 false, SchedEvent.invoke 3100 true],
        st.outstanding ≤ 1 := by
  constructor
  · decide
  · decide

/-- C3 amended: the in-flight guard serializes only non-forced refreshes.
A non-forced invocation while the in-flight flag is set is a no-op (no call
issued, state unchanged); a forced invocation always passes both guards and
issues a call — even while another call is in flight (`force` bypasses the
in-flight guard as well as the cooldown). -/
theorem refresh_inflight_guard :
    (∀ (s : SchedState) (now : ℕ), s.loadingLock = true →
      schedStep s (SchedEvent.invoke now false) = (s, 0)) ∧
    (∀ (s : SchedState) (now : ℕ),
      schedStep s (SchedEvent.invoke now true) =
        ({ s with loadingLock := true, outstanding := s.outstanding + 1 }, 1)) := by
  constructor
  · intro s now hlock
    simp [schedStep, refreshStarts, hlock]
  · intro s now
    simp [schedStep, refreshStarts]

/-- C3 witness: the amended in-flight-guard theorem at concrete states — a
locked state at t=4000 for the non-forced no-op, and the same state for the
forced bypass. -/
theorem refresh_inflight_guard_witness :
    (lockedSched.loadingLock = true ∧
      schedStep lockedSched (SchedEvent.invoke 4000 false) = (lockedSched, 0)) ∧
    schedStep lockedSched (SchedEvent.invoke 4000 true) =
      ({ lockedSched with loadingLock := true,
                          outstanding := lockedSched.outstanding + 1 }, 1) :=
  ⟨⟨rfl, refresh_inflight_guard.1 lockedSched 4000 rfl⟩,
    refresh_inflight_guard.2 lockedSched 4000⟩

/-!
## C4 — throttle law
-/

/-- C4 counterexample: two non-forced refreshes issued 500 ms apart can
issue TWO remote list calls.  From the initial state: a non-forced refresh
at t=5000 issues a call; that call fails (so `lastRefreshTimeRef` is not
updated); a second non-forced refresh at t=5500 — less than 2000 ms after
the first — passes both guards (lock released, `5500 - 0 ≥ 2000`) and
issues a second call. -/
theorem throttle_two_calls_cex :
    (schedRun {} [SchedEvent.invoke 5000 false, SchedEvent.complete 5000 false,
      SchedEvent.invoke 5500 false]).2 = 2 ∧
    5500 - 5000 < 2000 := by
  constructor
  · decide
  · decide

/-- C4 amended: the second non-forced refresh is a no-op exactly in the two
circumstances of the claim's own refinement — (a) while a refresh is in
flight, and (b) within 2000 ms of the start time of the last refresh that
completed successfully; and (c) a forced refresh issues a call whenever none
is in flight.  (The claim's headline fails only when the first call
completes unsuccessfully between the two invocations, as in the
counterexample.) -/
theorem throttle_guard_amended :
    (∀ (s : SchedState) (now : ℕ), s.loadingLock = true →
      schedStep s (SchedEvent.invoke now false) = (s, 0) ∧
      (schedStep s (SchedEvent.invoke now false)).2 = 0) ∧
    (∀ (s : SchedState) (t1 t2 : ℕ), t2 - t1 < 2000 →
      schedStep (schedStep s (SchedEvent.complete t1 true)).1 (SchedEvent.invoke t2 false) =
        ((schedStep s (SchedEvent.complete t1 true)).1, 0)) ∧
    (∀ (s : SchedState) (now : ℕ), s.loadingLock = false →
      (schedStep s (SchedEvent.invoke now true)).2 = 1) := by
  refine ⟨?_, ?_, ?_⟩
  · intro s now hlock
    constructor <;> simp [schedStep, refreshStarts, hlock]
  · intro s t1 t2 hcool
    simp [schedStep, refreshStarts, hcool]
  · intro s now hlock
    simp [schedStep, refreshStarts]

/-- C4 witness: the amended throttle theorem at concrete inputs — the locked
state for (a); init state, success completion at t1=5000 and a second
non-forced invocation at t2=5500 for (b); the initial state for (c). -/
theorem throttle_guard_amended_witness :
    (lockedSched.loadingLock = true ∧
      (schedStep lockedSched (SchedEvent.invoke 5500 false) = (lockedSched, 0) ∧
        (schedStep lockedSched (SchedEvent.invoke 5500 false)).2 = 0)) ∧
    (5500 - 5000 < 2000 ∧
      schedStep (schedStep lockedSched (SchedEvent.complete 5000 true)).1
          (SchedEvent.invoke 5500 false) =
        ((schedStep lockedSched (SchedEvent.complete 5000 true)).1, 0)) ∧
    ((schedRun {} []).1.loadingLock = false ∧
      (schedStep (schedRun {} []).1 (SchedEvent.invoke 6000 true)).2 = 1) :=
  ⟨⟨rfl, throttle_guard_amended.1 lockedSched 5500 rfl⟩,
    ⟨by decide, throttle_guard_amended.2.1 lockedSched 5000 5500 (by decide)⟩,
    ⟨rfl, throttle_guard_amended.2.2 (schedRun {} []).1 6000 rfl⟩⟩

/-!
## C8 — progress cleanup
-/

/-- C8: for every generate call that enters its body (non-empty trimmed
prompt, no generation in flight) and every way the awaited `infer` call
resolves — a payload without error, a payload carrying a soft `error`, or a
thrown exception — the resolved state has an empty Progress Map, no tick
timer scheduled, and the generating flag released: the `finally` clause
cancels the timer and clears the map unconditionally. -/
theorem handleGenerate_progress_cleanup (s : GenState) (prompt : String)
    (regions : List Region) (seed : String → ℚ) (timerId : ℕ)
    (hprompt : ¬ jsTrim prompt = "") (hgen : s.isGenerating = false) :
    ∀ outcome : GenOutcome,
      (handleGenerate s prompt regions seed timerId outcome).progressByRegion = [] ∧
      (handleGenerate s prompt regions seed timerId outcome).progressTimer = none ∧
      (handleGenerate s prompt regions seed timerId outcome).isGenerating = false := by
  intro outcome
  have hguard : (jsTrim prompt == "" || s.isGenerating) = false := by
    simp [hprompt, hgen]
  cases outcome <;> simp [handleGenerate, hguard]

/-- C8 witness: progress cleanup at a concrete call — prompt `"sunset"`,
one healthy region, timer id 7 — for both a resolved payload carrying a soft
error and a thrown call. -/
theorem handleGenerate_progress_cleanup_witness :
    (¬ (jsTrim "sunset" = "") ∧ (({} : GenState)).isGenerating = false) ∧
    (∀ outcome : GenOutcome,
      (handleGenerate {} "sunset" [regionAlpha] (fun _ => 10) 7 outcome).progressByRegion
          = [] ∧
      (handleGenerate {} "sunset" [regionAlpha] (fun _ => 10) 7 outcome).progressTimer
          = none ∧
      (handleGenerate {} "sunset" [regionAlpha] (fun _ => 10) 7 outcome).isGenerating
          = false) :=
  ⟨⟨by decide, rfl⟩,
    handleGenerate_progress_cleanup {} "sunset" [regionAlpha] (fun _ => 10) 7
      (by decide) rfl⟩

/-!
## Aggregation helper lemmas
-/

/-- Spec-side notion: the actual latency value a per-region result reported
(`0` never occurs under the hypotheses that use this on latency-less
entries). -/
def actualLatency (r : RegionResult) : ℚ := r.latency_ms.getD 0

theorem jsRound_eq_intCast (q : ℚ) (n : ℤ) (h : q = (n : ℚ)) : jsRound q = n := by
  rw [h]
  exact jsRound_intCast n

theorem list_map_congr {α β : Type} (f g : α → β) (l : List α)
    (h : ∀ a ∈ l, f a = g a) : l.map f = l.map g := by
  induction l with
  | nil => rfl
  | cons a t ih =>
    rw [List.map_cons, List.map_cons, h a (List.mem_cons_self a t),
      ih (fun x hx => h x (List.mem_cons_of_mem a hx))]

/-- The strict-`<` selection fold underlying `fastestFold`, parametrized by
the measure. -/
def selMin (f : RegionResult → ℚ) (a : RegionResult) (l : List RegionResult) : RegionResult :=
  l.foldl (fun b r => if f r < f b then r else b) a

theorem fastestFold_eq_selMin (init : RegionResult) (l : List RegionResult) :
    fastestFold init l = selMin (fun r => jsOr r.latency_ms MAX_SAFE_INTEGER) init l := rfl

/-- Specification of the strict-`<` selection fold: the result is the
accumulator or an element of the list; it attains the minimum of the measure
over accumulator and list; and when it comes from the list, everything
strictly before it in the list (and the accumulator) measures strictly
larger — i.e. ties are broken by first occurrence. -/
theorem selMin_spec (f : RegionResult → ℚ) :
    ∀ (l : List RegionResult) (a : RegionResult),
      (selMin f a l = a ∨
        ∃ l₁ l₂, l = l₁ ++ selMin f a l :: l₂ ∧ f (selMin f a l) < f a ∧
          ∀ r ∈ l₁, f (selMin f a l) < f r) ∧
      f (selMin f a l) ≤ f a ∧
      ∀ r ∈ l, f (selMin f a l) ≤ f r := by
  intro l
  induction l with
  | nil =>
    intro a
    exact ⟨Or.inl rfl, le_refl _, by simp⟩
  | cons r t ih =>
    intro a
    have hstep0 : selMin f a (r :: t) = selMin f (if f r < f a then r else a) t := rfl
    by_cases h : f r < f a
    · have hstep : selMin f a (r :: t) = selMin f r t := by rw [hstep0, if_pos h]
      obtain ⟨hdisj, hle, hall⟩ := ih r
      refine ⟨?_, by rw [hstep]; exact le_of_lt (lt_of_le_of_lt hle h), ?_⟩
      · rcases hdisj with heq | ⟨l₁, l₂, ht, hlt, hfirst⟩
        · right
          exact ⟨[], t, by rw [hstep, heq]; simp, by rw [hstep, heq]; exact h, by simp⟩
        · right
          refine ⟨r :: l₁, l₂, ?_, ?_, ?_⟩
          · rw [hstep, List.cons_append]
            exact congrArg (r :: ·) ht
          · rw [hstep]
            exact lt_trans hlt h
          · intro x hx
            rcases List.mem_cons.mp hx with rfl | hx'
            · rw [hstep]
              exact hlt
            · rw [hstep]
              exact hfirst x hx'
      · intro x hx
        rcases List.mem_cons.mp hx with rfl | hx'
        · rw [hstep]
          exact hle
        · rw [hstep]
          exact hall x hx'
    · have hstep : selMin f a (r :: t) = selMin f a t := by rw [hstep0, if_neg h]
      have hra : f a ≤ f r := not_lt.mp h
      obtain ⟨hdisj, hle, hall⟩ := ih a
      refine ⟨?_, by rw [hstep]; exact hle, ?_⟩
      · rcases hdisj with heq | ⟨l₁, l₂, ht, hlt, hfirst⟩
        · left
          rw [hstep, heq]
        · right
          refine ⟨r :: l₁, l₂, ?_, ?_, ?_⟩
          · rw [hstep, List.cons_append]
            exact congrArg (r :: ·) ht
          · rw [hstep]
            exact hlt
          · intro x hx
            rcases List.mem_cons.mp hx with rfl | hx'
            · rw [hstep]
              exact lt_of_lt_of_le hlt hra
            · rw [hstep]
              exact hfirst x hx'
      · intro x hx
        rcases List.mem_cons.mp hx with rfl | hx'
        · rw [hstep]
          exact le_trans hle hra
        · rw [hstep]
          exact hall x hx'

/-- Specification of `foldl min`: the result is the seed or an element, is a
lower bound of the seed, and a lower bound of every element. -/
theorem foldl_min_spec : ∀ (l : List ℚ) (a : ℚ),
    (l.foldl min a = a ∨ l.foldl min a ∈ l) ∧
    l.foldl min a ≤ a ∧
    ∀ x ∈ l, l.foldl min a ≤ x := by
  intro l
  induction l with
  | nil =>
    intro a
    exact ⟨Or.inl rfl, le_refl _, by simp⟩
  | cons b t ih =>
    intro a
    have hstep : (b :: t).foldl min a = t.foldl min (min a b) := rfl
    obtain ⟨hdisj, hle, hall⟩ := ih (min a b)
    refine ⟨?_, by rw [hstep]; exact le_trans hle (min_le_left a b), ?_⟩
    · rcases hdisj with heq | hmem
      · rcases min_choice a b with h | h
        · left
          rw [hstep, heq, h]
        · right
          rw [hstep, heq, h]
          exact List.mem_cons_self b t
      · right
        rw [hstep]
        exact List.mem_cons_of_mem b hmem
    · intro x hx
      rcases List.mem_cons.mp hx with rfl | hx'
      · rw [hstep]
        exact le_trans hle (min_le_right a x)
      · rw [hstep]
        exact hall x hx'

theorem latencySum_eq_map_sum (l : List RegionResult) :
    latencySum l = (l.map (fun r => jsOr r.latency_ms 0)).sum := by
  have key : ∀ (t : List RegionResult) (c : ℚ),
      t.foldl (fun acc r => acc + jsOr r.latency_ms 0) c =
        c + (t.map (fun r => jsOr r.latency_ms 0)).sum := by
    intro t
    induction t with
    | nil => intro c; simp
    | cons r u ih =>
      intro c
      rw [List.foldl_cons, ih, List.map_cons, List.sum_cons, add_assoc]
  unfold latencySum
  rw [key]
  exact zero_add _

/-- Reduction of `pipelineSummary` once the filtered valid list is known. -/
theorem pipelineSummary_eq_of_filter (results : List RegionResult)
    (v0 : RegionResult) (vtail : List RegionResult)
    (hv : results.filter (fun r => r.latency_ms.isSome) = v0 :: vtail) :
    pipelineSummary results = some
      { count := (v0 :: vtail).length,
        fastestName := jsOrStr (fastestFold v0 (v0 :: vtail)).region_name
          (fastestFold v0 (v0 :: vtail)).region_slug,
        fastestLatency := jsRound (jsOr (fastestFold v0 (v0 :: vtail)).latency_ms 0),
        averageLatency := jsRound (latencySum (v0 :: vtail) / (((v0 :: vtail).length : ℕ) : ℚ)),
        parallelTime := jsRound ((vtail.map (fun r => jsOr r.latency_ms 0)).foldl min
          (jsOr v0.latency_ms 0)) } := by
  have hres : ¬ results.length = 0 := by
    intro h0
    rw [List.length_eq_zero] at h0
    rw [h0] at hv
    simp at hv
  unfold pipelineSummary
  rw [if_neg hres, hv]

/-!
## C6 — pipeline aggregation
-/

/-- C6 counterexample: for the input `[Z(0ms), B(80ms)]` the summary reports
`fastest = B (80 ms)` although the minimum latency is 0 ms, attained by the
earlier entry `Z` — the comparison `r.latency_ms || MAX_SAFE_INTEGER` treats
`Z`'s 0 as `MAX_SAFE_INTEGER`, so the claim's "fastest = the entry with
minimum latency" fails at this input (80 is not a lower bound of the
latencies). -/
theorem pipelineSummary_zero_latency_cex :
    pipelineSummary [resultZ, resultB] =
      some { count := 2, fastestName := "B", fastestLatency := 80,
             averageLatency := 40, parallelTime := 0 } ∧
    actualLatency resultZ = 0 ∧
    (∀ r ∈ [resultZ, resultB], actualLatency resultZ ≤ actualLatency r) ∧
    ¬ ((80 : ℚ) ≤ actualLatency resultZ) := by
  refine ⟨?_, by decide, by decide, by decide⟩
  rw [pipelineSummary_eq_of_filter [resultZ, resultB] resultZ [resultB] (by decide)]
  rw [show fastestFold resultZ [resultZ, resultB] = resultB from by decide]
  refine congrArg some ?_
  simp only [PipelineSummary.mk.injEq]
  refine ⟨by decide, by decide, ?_, ?_, ?_⟩
  · exact jsRound_eq_intCast _ 80 (by decide)
  · exact jsRound_eq_intCast _ 40 (by norm_num [latencySum, jsOr, resultZ, resultB])
  · exact jsRound_eq_intCast _ 0 (by norm_num [jsOr, min_def, resultZ, resultB])

/-- C6 amended: the aggregation claim holds with two qualifications forced
by the counterexample and the display rounding: all reported latencies are
nonzero integers (a 0 ms latency breaks the fastest selection, and
non-integer values are rounded for display).  Then: (no-data case) when no
entry carries a latency, no summary is produced; (main case) for every
result list whose latencies are nonzero integers and which has at least one
latency-bearing entry, a summary is produced with `count` the number of
latency-bearing entries, `fastest` a latency-bearing entry of minimal
latency that is preceded only by strictly slower entries (first occurrence
wins ties), `averageLatency` the arithmetic mean of the latencies rounded
half-up, and `parallelTime` the minimum latency (a value attained by some
entry and a lower bound of all); and the spec's concrete example
`[A(120ms), B(80ms), C(error)]` yields
`count=2, fastest=B(80ms), averageLatency=100, parallelTime=80`. -/
theorem pipelineSummary_amended :
    (∀ results : List RegionResult,
      results.filter (fun r => r.latency_ms.isSome) = [] →
      pipelineSummary results = none) ∧
    (∀ results : List RegionResult,
      (∀ r ∈ results, ∀ v : ℚ, r.latency_ms = some v → (∃ n : ℤ, v = (n : ℚ)) ∧ v ≠ 0) →
      results.filter (fun r => r.latency_ms.isSome) ≠ [] →
      ∃ s : PipelineSummary, pipelineSummary results = some s ∧
        s.count = (results.filter (fun r => r.latency_ms.isSome)).length ∧
        (∃ l₁ l₂ fst, results.filter (fun r => r.latency_ms.isSome) = l₁ ++ fst :: l₂ ∧
          s.fastestName = jsOrStr fst.region_name fst.region_slug ∧
          ((s.fastestLatency : ℤ) : ℚ) = actualLatency fst ∧
          (∀ r ∈ results.filter (fun r => r.latency_ms.isSome),
            actualLatency fst ≤ actualLatency r) ∧
          (∀ r ∈ l₁, actualLatency fst < actualLatency r)) ∧
        s.averageLatency =
          jsRound (((results.filter (fun r => r.latency_ms.isSome)).map actualLatency).sum /
            (((results.filter (fun r => r.latency_ms.isSome)).length : ℕ) : ℚ)) ∧
        ((∃ r ∈ results.filter (fun r => r.latency_ms.isSome),
            ((s.parallelTime : ℤ) : ℚ) = actualLatency r) ∧
          ∀ r ∈ results.filter (fun r => r.latency_ms.isSome),
            ((s.parallelTime : ℤ) : ℚ) ≤ actualLatency r)) ∧
    pipelineSummary [resultA, resultB, resultC] =
      some { count := 2, fastestName := "B", fastestLatency := 80,
             averageLatency := 100, parallelTime := 80 } := by
  refine ⟨?_, ?_, ?_⟩
  · intro results h
    unfold pipelineSummary
    rw [h]
    by_cases hl : results.length = 0 <;> simp [hl]
  · intro results hint hne
    obtain ⟨v0, vtail, hv⟩ : ∃ v0 vtail,
        results.filter (fun r => r.latency_ms.isSome) = v0 :: vtail := by
      cases hcase : results.filter (fun r => r.latency_ms.isSome) with
      | nil => exact absurd hcase hne
      | cons a b => exact ⟨a, b, rfl⟩
    have hmem : ∀ r ∈ v0 :: vtail, r ∈ results ∧ r.latency_ms.isSome = true := by
      intro r hr
      rw [← hv] at hr
      exact List.mem_filter.mp hr
    have hkey : ∀ r ∈ v0 :: vtail,
        jsOr r.latency_ms MAX_SAFE_INTEGER = actualLatency r ∧
        jsOr r.latency_ms 0 = actualLatency r ∧
        ∃ n : ℤ, actualLatency r = (n : ℚ) := by
      intro r hr
      obtain ⟨hrres, hrsome⟩ := hmem r hr
      obtain ⟨v, hveq⟩ := Option.isSome_iff_exists.mp hrsome
      obtain ⟨⟨n, hn⟩, hnz⟩ := hint r hrres v hveq
      have hact : actualLatency r = v := by simp [actualLatency, hveq]
      refine ⟨?_, ?_, ⟨n, by rw [hact, hn]⟩⟩
      · rw [hveq, hact]
        exact jsOr_some_of_ne v _ hnz
      · rw [hveq, hact]
        exact jsOr_some_zero v
    rw [pipelineSummary_eq_of_filter results v0 vtail hv]
    refine ⟨_, rfl, by rw [hv], ?_, ?_, ?_⟩
    · -- fastest entry
      obtain ⟨hdisj, hleF, hallF⟩ :=
        selMin_spec (fun r => jsOr r.latency_ms MAX_SAFE_INTEGER) (v0 :: vtail) v0
      set res := selMin (fun r => jsOr r.latency_ms MAX_SAFE_INTEGER) v0 (v0 :: vtail)
        with hresdef
      obtain ⟨l₁, l₂, hsp, hfirst⟩ : ∃ l₁ l₂,
          v0 :: vtail = l₁ ++ res :: l₂ ∧
          ∀ r ∈ l₁, jsOr res.latency_ms MAX_SAFE_INTEGER <
            jsOr r.latency_ms MAX_SAFE_INTEGER := by
        rcases hdisj with heq | ⟨l₁, l₂, hsp, _, hfirst⟩
        · refine ⟨[], vtail, ?_, by simp⟩
          rw [heq]
          rfl
        · exact ⟨l₁, l₂, hsp, hfirst⟩
      have hresmem : res ∈ v0 :: vtail := by
        rw [hsp]
        exact List.mem_append_right l₁ (List.mem_cons_self _ _)
      obtain ⟨hFres, hZres, n, hn⟩ := hkey _ hresmem
      refine ⟨l₁, l₂, res, by rw [hv]; exact hsp, ?_, ?_, ?_, ?_⟩
      · show jsOrStr (fastestFold v0 (v0 :: vtail)).region_name
          (fastestFold v0 (v0 :: vtail)).region_slug = _
        rw [fastestFold_eq_selMin, ← hresdef]
      · show ((jsRound (jsOr (fastestFold v0 (v0 :: vtail)).latency_ms 0) : ℤ) : ℚ) = _
        rw [fastestFold_eq_selMin, ← hresdef, hZres, jsRound_eq_intCast _ n hn, ← hn]
      · intro r hr
        rw [hv] at hr
        have := hallF r hr
        rw [hFres, (hkey r hr).1] at this
        exact this
      · intro r hr
        have hrmem : r ∈ v0 :: vtail := by
          rw [hsp]
          exact List.mem_append_left _ hr
        have := hfirst r hr
        rw [hFres, (hkey r hrmem).1] at this
        exact this
    · -- average
      show jsRound (latencySum (v0 :: vtail) / _) = _
      rw [hv, latencySum_eq_map_sum,
        list_map_congr (fun r => jsOr r.latency_ms 0) actualLatency (v0 :: vtail)
          (fun r hr => (hkey r hr).2.1)]
    · -- parallel time
      obtain ⟨hd, hleM, hallM⟩ :=
        foldl_min_spec (vtail.map (fun r => jsOr r.latency_ms 0)) (jsOr v0.latency_ms 0)
      obtain ⟨r0, hr0mem, hm0⟩ : ∃ r0 ∈ v0 :: vtail,
          (vtail.map (fun r => jsOr r.latency_ms 0)).foldl min (jsOr v0.latency_ms 0) =
            actualLatency r0 := by
        rcases hd with heq | hmem'
        · exact ⟨v0, List.mem_cons_self _ _, by
            rw [heq, (hkey v0 (List.mem_cons_self _ _)).2.1]⟩
        · obtain ⟨r0, hr0, hgr0⟩ := List.mem_map.mp hmem'
          exact ⟨r0, List.mem_cons_of_mem v0 hr0, by
            rw [← hgr0, (hkey r0 (List.mem_cons_of_mem v0 hr0)).2.1]⟩
      obtain ⟨n, hn⟩ := (hkey r0 hr0mem).2.2
      have hcast : ((jsRound ((vtail.map (fun r => jsOr r.latency_ms 0)).foldl min
          (jsOr v0.latency_ms 0)) : ℤ) : ℚ) =
          (vtail.map (fun r => jsOr r.latency_ms 0)).foldl min (jsOr v0.latency_ms 0) := by
        rw [jsRound_eq_intCast _ n (by rw [hm0, hn]), ← hn, ← hm0]
      constructor
      · refine ⟨r0, by rw [hv]; exact hr0mem, ?_⟩
        rw [hcast, hm0]
      · intro r hr
        rw [hv] at hr
        rw [hcast]
        rcases List.mem_cons.mp hr with rfl | hr'
        · rw [← (hkey r (List.mem_cons_self _ _)).2.1]
          exact hleM
        · rw [← (hkey r hr).2.1]
          exact hallM _ (List.mem_map_of_mem _ hr')
  · -- the spec's concrete aggregation example
    rw [pipelineSummary_eq_of_filter [resultA, resultB, resultC] resultA [resultB] (by decide)]
    rw [show fastestFold resultA [resultA, resultB] = resultB from by decide]
    refine congrArg some ?_
    simp only [PipelineSummary.mk.injEq]
    refine ⟨by decide, by decide, ?_, ?_, ?_⟩
    · exact jsRound_eq_intCast _ 80 (by decide)
    · exact jsRound_eq_intCast _ 100 (by norm_num [latencySum, jsOr, resultA, resultB])
    · exact jsRound_eq_intCast _ 80 (by norm_num [jsOr, min_def, resultA, resultB])

/-- C6 witness: the amended aggregation theorem applied to the spec's
concrete example list, with its hypotheses discharged there. -/
theorem pipelineSummary_amended_witness :
    ((∀ r ∈ [resultA, resultB, resultC], ∀ v : ℚ, r.latency_ms = some v →
        (∃ n : ℤ, v = (n : ℚ)) ∧ v ≠ 0) ∧
      [resultA, resultB, resultC].filter (fun r => r.latency_ms.isSome) ≠ []) ∧
    (∃ s : PipelineSummary, pipelineSummary [resultA, resultB, resultC] = some s ∧
      s.count = ([resultA, resultB, resultC].filter (fun r => r.latency_ms.isSome)).length) := by
  have hint : ∀ r ∈ [resultA, resultB, resultC], ∀ v : ℚ, r.latency_ms = some v →
      (∃ n : ℤ, v = (n : ℚ)) ∧ v ≠ 0 := by
    intro r hr v hv
    fin_cases hr
    · have h120 : (120 : ℚ) = v := by simpa [resultA] using hv
      exact ⟨⟨120, by rw [← h120]; norm_num⟩, by rw [← h120]; norm_num⟩
    · have h80 : (80 : ℚ) = v := by simpa [resultB] using hv
      exact ⟨⟨80, by rw [← h80]; norm_num⟩, by rw [← h80]; norm_num⟩
    · simp [resultC] at hv
  refine ⟨⟨hint, by decide⟩, ?_⟩
  obtain ⟨s, h1, h2, _⟩ :=
    pipelineSummary_amended.2.1 [resultA, resultB, resultC] hint (by decide)
  exact ⟨s, h1, h2⟩

/-!
## C10 — zero-latency edge case of the aggregation
-/

/-- C10: the zero-latency edge case.  (1) An entry with `latency_ms = 0`
passes the validity filter, so it is counted; (2) whenever the filter is
non-empty a summary is produced whose `count` is the number of valid entries
and whose `averageLatency` averages the actual latencies — the 0 included —
and, when all latencies are nonnegative and some entry reports exactly 0,
`parallelTime = 0`; (3) the fastest selection never returns a zero-latency
entry other than the first valid one, because the comparison maps 0 to
`MAX_SAFE_INTEGER` (latencies bounded by `MAX_SAFE_INTEGER`); (4) on
`[Z(0ms), B(80ms)]` the summary reports `fastest = B` with 80 ms while
`parallelTime = 0`, so the reported fastest latency strictly exceeds the
reported parallel time. -/
theorem pipelineSummary_zero_latency_behaviour :
    (∀ (results : List RegionResult) (r : RegionResult), r ∈ results →
      r.latency_ms = some 0 → r ∈ results.filter (fun x => x.latency_ms.isSome)) ∧
    (∀ (results : List RegionResult) (v0 : RegionResult) (vtail : List RegionResult),
      results.filter (fun r => r.latency_ms.isSome) = v0 :: vtail →
      ∃ s : PipelineSummary, pipelineSummary results = some s ∧
        s.count = (v0 :: vtail).length ∧
        s.averageLatency = jsRound (((v0 :: vtail).map actualLatency).sum /
          (((v0 :: vtail).length : ℕ) : ℚ)) ∧
        ((∀ r ∈ results, ∀ v : ℚ, r.latency_ms = some v → 0 ≤ v) →
          (∃ r ∈ results, r.latency_ms = some 0) → s.parallelTime = 0)) ∧
    (∀ (v0 : RegionResult) (vtail : List RegionResult),
      (∀ r ∈ v0 :: vtail, ∀ v : ℚ, r.latency_ms = some v → v ≤ MAX_SAFE_INTEGER) →
      (fastestFold v0 (v0 :: vtail)).latency_ms = some 0 →
      fastestFold v0 (v0 :: vtail) = v0) ∧
    (pipelineSummary [resultZ, resultB] =
      some { count := 2, fastestName := "B", fastestLatency := 80,
             averageLatency := 40, parallelTime := 0 } ∧
      ¬ (80 : ℤ) ≤ 0) := by
  refine ⟨?_, ?_, ?_, ?_, by decide⟩
  · intro results r hr h0
    exact List.mem_filter.mpr ⟨hr, by simp [h0]⟩
  · intro results v0 vtail hv
    have hmem : ∀ r ∈ v0 :: vtail, r ∈ results ∧ r.latency_ms.isSome = true := by
      intro r hr
      rw [← hv] at hr
      exact List.mem_filter.mp hr
    have hfz : ∀ r ∈ v0 :: vtail, jsOr r.latency_ms 0 = actualLatency r := by
      intro r hr
      obtain ⟨v, hveq⟩ := Option.isSome_iff_exists.mp (hmem r hr).2
      rw [hveq, show actualLatency r = v from by simp [actualLatency, hveq]]
      exact jsOr_some_zero v
    rw [pipelineSummary_eq_of_filter results v0 vtail hv]
    refine ⟨_, rfl, rfl, ?_, ?_⟩
    · show jsRound (latencySum (v0 :: vtail) / _) = _
      rw [latencySum_eq_map_sum,
        list_map_congr (fun r => jsOr r.latency_ms 0) actualLatency (v0 :: vtail) hfz]
    · intro hnonneg hzero
      obtain ⟨r0, hr0, h0⟩ := hzero
      have hr0valid : r0 ∈ v0 :: vtail := by
        rw [← hv]
        exact List.mem_filter.mpr ⟨hr0, by simp [h0]⟩
      have hg0 : jsOr r0.latency_ms 0 = 0 := by
        rw [h0]
        simp [jsOr]
      have hnn : ∀ x ∈ v0 :: vtail, 0 ≤ jsOr x.latency_ms 0 := by
        intro x hx
        obtain ⟨v, hveq⟩ := Option.isSome_iff_exists.mp (hmem x hx).2
        rw [hveq, jsOr_some_zero]
        exact hnonneg x (hmem x hx).1 v hveq
      obtain ⟨hd, hleM, hallM⟩ :=
        foldl_min_spec (vtail.map (fun r => jsOr r.latency_ms 0)) (jsOr v0.latency_ms 0)
      have hm_le : (vtail.map (fun r => jsOr r.latency_ms 0)).foldl min
          (jsOr v0.latency_ms 0) ≤ 0 := by
        rcases List.mem_cons.mp hr0valid with rfl | hr'
        · exact le_trans hleM (le_of_eq hg0)
        · exact le_trans (hallM _ (List.mem_map_of_mem _ hr')) (le_of_eq hg0)
      have h0_le : 0 ≤ (vtail.map (fun r => jsOr r.latency_ms 0)).foldl min
          (jsOr v0.latency_ms 0) := by
        rcases hd with heq | hmem'
        · rw [heq]
          exact hnn v0 (List.mem_cons_self _ _)
        · obtain ⟨x, hx, hgx⟩ := List.mem_map.mp hmem'
          rw [← hgx]
          exact hnn x (List.mem_cons_of_mem v0 hx)
      show jsRound _ = 0
      rw [le_antisymm hm_le h0_le]
      exact jsRound_eq_intCast 0 0 (by norm_num)
  · intro v0 vtail hbound h0
    rw [fastestFold_eq_selMin] at h0 ⊢
    obtain ⟨hdisj, hleF, hallF⟩ :=
      selMin_spec (fun r => jsOr r.latency_ms MAX_SAFE_INTEGER) (v0 :: vtail) v0
    rcases hdisj with heq | ⟨l₁, l₂, hsp, hlt, _⟩
    · exact heq
    · exfalso
      have hFres : jsOr (selMin (fun r => jsOr r.latency_ms MAX_SAFE_INTEGER) v0
          (v0 :: vtail)).latency_ms MAX_SAFE_INTEGER = MAX_SAFE_INTEGER := by
        rw [h0]
        simp [jsOr]
      have hFv0le : jsOr v0.latency_ms MAX_SAFE_INTEGER ≤ MAX_SAFE_INTEGER := by
        cases hv0 : v0.latency_ms with
        | none => simp [jsOr]
        | some v =>
          by_cases hz : v = 0
          · simp [jsOr, hz]
          · rw [jsOr_some_of_ne v _ hz]
            exact hbound v0 (List.mem_cons_self _ _) v hv0
      rw [hFres] at hlt
      exact absurd hlt (not_lt.mpr hFv0le)
  · rw [pipelineSummary_eq_of_filter [resultZ, resultB] resultZ [resultB] (by decide)]
    rw [show fastestFold resultZ [resultZ, resultB] = resultB from by decide]
    refine congrArg some ?_
    simp only [PipelineSummary.mk.injEq]
    refine ⟨by decide, by decide, ?_, ?_, ?_⟩
    · exact jsRound_eq_intCast _ 80 (by decide)
    · exact jsRound_eq_intCast _ 40 (by norm_num [latencySum, jsOr, resultZ, resultB])
    · exact jsRound_eq_intCast _ 0 (by norm_num [jsOr, min_def, resultZ, resultB])

/-- C10 witness: the zero-latency theorem at concrete inputs — the
membership clause and the parallel-time clause at `[Z(0ms), B(80ms)]`, and
the fastest-selection clause at the one-entry list `[Z(0ms)]`, hypotheses
discharged there. -/
theorem pipelineSummary_zero_latency_behaviour_witness :
    (resultZ ∈ [resultZ, resultB] ∧ resultZ.latency_ms = some 0 ∧
      resultZ ∈ [resultZ, resultB].filter (fun x => x.latency_ms.isSome)) ∧
    ([resultZ, resultB].filter (fun r => r.latency_ms.isSome) = resultZ :: [resultB] ∧
      ∃ s : PipelineSummary, pipelineSummary [resultZ, resultB] = some s ∧
        s.parallelTime = 0) ∧
    ((fastestFold resultZ [resultZ]).latency_ms = some 0 ∧
      fastestFold resultZ [resultZ] = resultZ) := by
  have hnonneg : ∀ r ∈ [resultZ, resultB], ∀ v : ℚ, r.latency_ms = some v → 0 ≤ v := by
    intro r hr v hv
    fin_cases hr
    · have h0 : (0 : ℚ) = v := by simpa [resultZ] using hv
      rw [← h0]
    · have h80 : (80 : ℚ) = v := by simpa [resultB] using hv
      rw [← h80]
      norm_num
  have hbound : ∀ r ∈ [resultZ], ∀ v : ℚ, r.latency_ms = some v →
      v ≤ MAX_SAFE_INTEGER := by
    intro r hr v hv
    fin_cases hr
    have h0 : (0 : ℚ) = v := by simpa [resultZ] using hv
    rw [← h0]
    norm_num [MAX_SAFE_INTEGER]
  refine ⟨⟨by decide, rfl,
    pipelineSummary_zero_latency_behaviour.1 [resultZ, resultB] resultZ (by decide) rfl⟩,
    ⟨by decide, ?_⟩, rfl,
    pipelineSummary_zero_latency_behaviour.2.2.1 resultZ [] hbound rfl⟩
  obtain ⟨s, hps, _, _, hpar⟩ :=
    pipelineSummary_zero_latency_behaviour.2.1 [resultZ, resultB] resultZ [resultB]
      (by decide)
  exact ⟨s, hps, hpar hnonneg ⟨resultZ, by decide, rfl⟩⟩
